import Mathlib

/-
Verification of the geoutils region-coloring utilities.

The source program converts Statistics Canada boundary data to GeoJSON and
optionally colors regions so that no two adjacent regions share a color
(`to_geojson`, `get_id_col`, `color_regions` in geoutils.py).  The
constraint-solving engine itself is provided by the external `constraint`
library, whose code is not part of the repository; following the design
specification, that engine is modelled here as a deterministic backtracking
search over the adjacency relation that `color_regions` constructs from the
pairwise `touches` test.
-/

namespace Geoutils

/-- A geographic dataframe, reduced to what the coloring path of the source
uses: named attribute columns (values kept as strings) and one geometry per
row.  `γ` is the geometry type; the program only ever applies the external
`touches` predicate to geometries. -/
structure GeoDF (γ : Type) where
  cols : List (String × List String)
  geoms : List γ

/-- `df[col]`: the values of the first column named `col` (a pandas
selection on a unique column label). -/
def colValues {γ : Type} (df : GeoDF γ) (col : String) : List String :=
  (df.cols.lookup col).getD []

/-- The column filter regex of the source, `.*UID$`: a name matches exactly
when its characters end with `UID` (expressed on the character list so it is
computable by the kernel). -/
def matchesUID (name : String) : Bool :=
  "UID".data.isSuffixOf name.data

/-- `get_id_col`: scan the columns whose name ends in `"UID"` in order and
return the name of the first one whose values are pairwise distinct
(`len(df[uid].unique()) == len(df[uid])`); `None` if there is none. -/
def get_id_col {γ : Type} (df : GeoDF γ) : Option String :=
  ((df.cols.filter fun c => matchesUID c.1).find?
    fun c => c.2.dedup.length == c.2.length).map Prod.fst

/-- The adjacency matrix built by `color_regions`: positions `p` and `q`
are adjacent when both index a row and the external `touches` test relates
their geometries, with the diagonal cleared afterwards
(`np.fill_diagonal(matrix, False)`), so self-pairs are excluded no matter
what the test returns. -/
def adjRel {γ : Type} (df : GeoDF γ) (touches : γ → γ → Bool) (p q : Nat) : Bool :=
  decide (p ≠ q) &&
    match df.geoms.get? p, df.geoms.get? q with
    | some a, some b => touches a b
    | _, _ => false

/-- A trial value `v` for position `r` is consistent with the partial
assignment when every already-assigned position that is adjacent to `r`
(in either orientation of the matrix, since the source adds a binary
not-equal constraint for each `True` matrix entry) carries a different
color. -/
def consistent (adj : Nat → Nat → Bool) (assigned : List (Nat × Nat)) (r v : Nat) : Bool :=
  assigned.all fun p => !(adj r p.1 || adj p.1 r) || decide (p.2 ≠ v)

/-- Modelled from the spec: one step of the backtracking search of the
external constraint solver (not in the repository).  Positions are taken in
the fixed input order; the candidate colors `0, …, K-1` are tried in
increasing order, and the first value whose recursive call succeeds is
kept.  Returns the completed assignment or `none` when every candidate for
the next position is exhausted. -/
def solveAux (adj : Nat → Nat → Bool) (K : Nat) :
    List Nat → List (Nat × Nat) → Option (List (Nat × Nat))
  | [], assigned => some assigned
  | r :: rest, assigned =>
      (List.range K).findSome? fun v =>
        if consistent adj assigned r v then
          solveAux adj K rest (assigned ++ [(r, v)])
        else
          none

/-- Modelled from the spec: the top-level solver call — search the positions
`0, …, n-1` starting from the empty assignment. -/
def solve (n K : Nat) (adj : Nat → Nat → Bool) : Option (List (Nat × Nat)) :=
  solveAux adj K (List.range n) []

/-- Result of `color_regions`: a complete assignment (the solver's
solution dictionary), the infeasible outcome (`None` from the solver), or
an error raised while the problem is being set up, before search: the
numpy `ValueError` from `np.fill_diagonal` on the 1-D matrix of a zero-row
frame, or the engine's errors for duplicate identifiers and an empty color
domain. -/
inductive ColorResult where
  | assignment (m : List (String × Nat))
  | infeasible
  | invalidInput
deriving DecidableEq

/-- `color_regions df col num_colors`: build the touch-derived adjacency
matrix over the rows, one variable per value of `df[col]` with domain
`[0, K)`, and solve.  With zero rows the matrix comprehension yields a 1-D
empty array and `np.fill_diagonal` raises a `ValueError` before the engine
runs, so the empty frame is an error outcome, never a result.  The input
validation on the remaining path (pairwise-distinct identifiers, `K ≥ 1`)
is modelled from the spec: the engine rejects such input before search
begins.  A successful search is returned as a mapping from each identifier
to its color. -/
def color_regions {γ : Type} (df : GeoDF γ) (touches : γ → γ → Bool)
    (col : String) (K : Nat) : ColorResult :=
  let nodes := colValues df col
  if df.geoms.length = 0 then
    ColorResult.invalidInput
  else if nodes.dedup.length ≠ nodes.length ∨ K < 1 then
    ColorResult.invalidInput
  else
    match solve nodes.length K (adjRel df touches) with
    | some m => ColorResult.assignment (m.map fun pv => (nodes.getD pv.1 "", pv.2))
    | none => ColorResult.infeasible

/-- The `COLOR` column written by `to_geojson`: initialized to `-1`
(`df["COLOR"] = -1`), then for each node of the color map every row whose
`col` value equals that node receives the node's color. -/
def colorColumn {γ : Type} (df : GeoDF γ) (col : String)
    (cmap : List (String × Nat)) : List Int :=
  (colValues df col).map fun node => ((cmap.lookup node).map Int.ofNat).getD (-1)

/-- The coloring path of `to_geojson` (archive reading, attribute filters,
reprojection and file writing are I/O outside this model).  With
`color = True`: if no unique UID column is found the coloring step is
skipped with only a printed message; otherwise `color_regions` runs with
`K = 5` and its result dictionary is iterated without any `None` check, so
the infeasible outcome (`None`) raises a `TypeError` at the loop, and a
validation error from the engine propagates. -/
def to_geojson {γ : Type} (df : GeoDF γ) (touches : γ → γ → Bool)
    (color : Bool) : Except String (GeoDF γ × Option (List Int)) :=
  if color then
    match get_id_col df with
    | none => Except.ok (df, none)
    | some col =>
      match color_regions df touches col 5 with
      | ColorResult.assignment cmap => Except.ok (df, some (colorColumn df col cmap))
      | ColorResult.infeasible => Except.error "TypeError: NoneType is not iterable"
      | ColorResult.invalidInput => Except.error "ValueError"
  else
    Except.ok (df, none)

/-- A proper `K`-coloring of the `n` positions with respect to the (possibly
asymmetric) Boolean adjacency matrix `adj`: colors lie in `[0, K)` and any
two distinct positions related in either orientation get different colors. -/
def ProperColoring (n K : Nat) (adj : Nat → Nat → Bool) (f : Nat → Nat) : Prop :=
  (∀ p, p < n → f p < K) ∧
    ∀ p q, p < n → q < n → p ≠ q → (adj p q = true ∨ adj q p = true) → f p ≠ f q

/-- Compatibility of two assigned entries: if their positions are adjacent
in either orientation, their colors differ. -/
def Compat (adj : Nat → Nat → Bool) (p q : Nat × Nat) : Prop :=
  (adj p.1 q.1 = true ∨ adj q.1 p.1 = true) → p.2 ≠ q.2

/-! ### Generic list facts used by the solver proofs -/

theorem exists_of_findSome?_some {α β : Type} {l : List α} {f : α → Option β} {b : β}
    (h : l.findSome? f = some b) : ∃ a, a ∈ l ∧ f a = some b := by
  induction l with
  | nil => simp [List.findSome?_nil] at h
  | cons x xs ih =>
    rw [List.findSome?_cons] at h
    cases hx : f x with
    | some c =>
      rw [hx] at h
      exact ⟨x, List.mem_cons_self x xs, by simpa [hx] using h⟩
    | none =>
      rw [hx] at h
      obtain ⟨a, ha, hfa⟩ := ih h
      exact ⟨a, List.mem_cons_of_mem x ha, hfa⟩

theorem findSome?_isSome_of_mem {α β : Type} {l : List α} (f : α → Option β) {a : α} {b : β}
    (ha : a ∈ l) (hf : f a = some b) : ∃ c, l.findSome? f = some c := by
  induction l with
  | nil => simp at ha
  | cons x xs ih =>
    rw [List.findSome?_cons]
    cases hx : f x with
    | some c => exact ⟨c, rfl⟩
    | none =>
      rcases List.mem_cons.mp ha with rfl | ha'
      · rw [hf] at hx; cases hx
      · exact ih ha'

theorem map_getD_range {α : Type} (l : List α) (d : α) :
    (List.range l.length).map (fun i => l.getD i d) = l := by
  apply List.ext_get?
  intro i
  rw [List.get?_map]
  by_cases hi : i < l.length
  · have hsome : l.get? i = some (l.get ⟨i, hi⟩) := List.get?_eq_some.mpr ⟨hi, rfl⟩
    rw [List.get?_range hi, hsome]
    simp [List.getD_eq_get?, hsome, List.getElem?_eq_getElem hi]
  · rw [List.get?_eq_none.mpr (Nat.le_of_not_lt hi), List.get?_eq_none.mpr]
    · rfl
    · simpa using Nat.le_of_not_lt hi

/-! ### Soundness and completeness of the modelled backtracking search -/

theorem consistent_iff {adj : Nat → Nat → Bool} {assigned : List (Nat × Nat)} {r v : Nat} :
    consistent adj assigned r v = true ↔ ∀ p ∈ assigned, Compat adj p (r, v) := by
  rw [consistent, List.all_eq_true]
  refine forall_congr' fun p => forall_congr' fun _ => ?_
  simp only [Bool.or_eq_true, Bool.not_eq_true', Bool.not_or, Bool.and_eq_true,
    Bool.not_eq_true, decide_eq_true_eq, Compat]
  constructor
  · rintro (⟨h1, h2⟩ | hne) (hadj | hadj) <;> simp_all
  · intro h
    by_cases hadj : adj p.1 r = true ∨ adj r p.1 = true
    · exact Or.inr (h hadj)
    · push_neg at hadj
      exact Or.inl ⟨by simp [hadj.2], by simp [hadj.1]⟩

theorem solveAux_sound {adj : Nat → Nat → Bool} {K : Nat} :
    ∀ (todo : List Nat) (assigned m : List (Nat × Nat)),
      solveAux adj K todo assigned = some m →
      ∃ ext, m = assigned ++ ext ∧ ext.map Prod.fst = todo ∧ (∀ p ∈ ext, p.2 < K) ∧
        (List.Pairwise (Compat adj) assigned → List.Pairwise (Compat adj) m) := by
  intro todo
  induction todo with
  | nil =>
    intro assigned m h
    rw [solveAux] at h
    obtain rfl : assigned = m := by simpa using h
    exact ⟨[], by simp, rfl, by simp, fun hp => hp⟩
  | cons r rest ih =>
    intro assigned m h
    rw [solveAux] at h
    obtain ⟨v, hv_mem, hv⟩ := exists_of_findSome?_some h
    have hc : consistent adj assigned r v = true := by
      by_contra hc
      rw [if_neg hc] at hv
      cases hv
    rw [if_pos hc] at hv
    obtain ⟨ext', hm, hfst, hval, hpair⟩ := ih (assigned ++ [(r, v)]) m hv
    refine ⟨(r, v) :: ext', ?_, ?_, ?_, ?_⟩
    · rw [hm, List.append_assoc]; rfl
    · simp [hfst]
    · intro p hp
      rcases List.mem_cons.mp hp with rfl | hp'
      · exact List.mem_range.mp hv_mem
      · exact hval p hp'
    · intro hpa
      apply hpair
      rw [List.pairwise_append]
      refine ⟨hpa, by simp, ?_⟩
      intro a ha b hb
      obtain rfl : b = (r, v) := by simpa using hb
      exact consistent_iff.mp hc a ha

theorem solveAux_complete {adj : Nat → Nat → Bool} {K : Nat} :
    ∀ (todo : List Nat) (assigned ext : List (Nat × Nat)),
      ext.map Prod.fst = todo → (∀ p ∈ ext, p.2 < K) →
      List.Pairwise (Compat adj) (assigned ++ ext) →
      ∃ m, solveAux adj K todo assigned = some m := by
  intro todo
  induction todo with
  | nil =>
    intro assigned ext _ _ _
    exact ⟨assigned, by rw [solveAux]⟩
  | cons r rest ih =>
    intro assigned ext hfst hval hpair
    cases ext with
    | nil => simp at hfst
    | cons p ext' =>
      obtain ⟨hp1, hrest⟩ : p.1 = r ∧ ext'.map Prod.fst = rest := by simpa using hfst
      have hp : p = (r, p.2) := by rw [← hp1]
      have hcons : consistent adj assigned r p.2 = true := by
        rw [consistent_iff]
        intro q hq
        have := (List.pairwise_append.mp hpair).2.2 q hq p (by simp)
        rwa [hp] at this
      have hpair' : List.Pairwise (Compat adj) ((assigned ++ [(r, p.2)]) ++ ext') := by
        rw [List.append_assoc]
        simpa [← hp] using hpair
      obtain ⟨m, hm⟩ := ih (assigned ++ [(r, p.2)]) ext' hrest
        (fun q hq => hval q (List.mem_cons_of_mem p hq)) hpair'
      have hv : p.2 ∈ List.range K := List.mem_range.mpr (hval p (List.mem_cons_self p ext'))
      have hpred : (fun v => if consistent adj assigned r v = true then
          solveAux adj K rest (assigned ++ [(r, v)]) else none) p.2 = some m := by
        show (if consistent adj assigned r p.2 = true then
          solveAux adj K rest (assigned ++ [(r, p.2)]) else none) = some m
        rw [if_pos hcons]; exact hm
      obtain ⟨c, hc'⟩ := findSome?_isSome_of_mem
        (fun v => if consistent adj assigned r v = true then
          solveAux adj K rest (assigned ++ [(r, v)]) else none) hv hpred
      exact ⟨c, by rw [solveAux]; exact hc'⟩

theorem solve_sound {n K : Nat} {adj : Nat → Nat → Bool} {m : List (Nat × Nat)}
    (h : solve n K adj = some m) :
    m.map Prod.fst = List.range n ∧ (∀ p ∈ m, p.2 < K) ∧ List.Pairwise (Compat adj) m := by
  obtain ⟨ext, hm, hfst, hval, hpair⟩ := solveAux_sound (List.range n) [] m h
  rw [List.nil_append] at hm
  subst hm
  exact ⟨hfst, hval, hpair (List.Pairwise.nil)⟩

theorem solve_get? {n K : Nat} {adj : Nat → Nat → Bool} {m : List (Nat × Nat)}
    (h : solve n K adj = some m) {i : Nat} (hi : i < n) :
    ∃ c, m.get? i = some (i, c) ∧ c < K := by
  obtain ⟨hfst, hval, _⟩ := solve_sound h
  have hmap : (m.map Prod.fst).get? i = some i := by
    rw [hfst]; exact List.get?_range hi
  rw [List.get?_map] at hmap
  cases hp : m.get? i with
  | none => rw [hp] at hmap; cases hmap
  | some pv =>
    rw [hp] at hmap
    have hfst1 : pv.1 = i := by simpa using hmap
    refine ⟨pv.2, ?_, hval pv (List.get?_mem hp)⟩
    exact congrArg some (by rw [← hfst1])

theorem pairwise_get? {α : Type} {R : α → α → Prop} {l : List α} (hp : List.Pairwise R l)
    {i j : Nat} {a b : α} (hij : i < j) (ha : l.get? i = some a) (hb : l.get? j = some b) :
    R a b := by
  obtain ⟨hi, ha'⟩ := List.get?_eq_some.mp ha
  obtain ⟨hj, hb'⟩ := List.get?_eq_some.mp hb
  rw [← ha', ← hb']
  exact List.pairwise_iff_get.mp hp ⟨i, hi⟩ ⟨j, hj⟩ hij

/-- A successful search certifies a proper coloring: reading the color of
position `p` off the returned assignment gives a `ProperColoring`. -/
theorem solve_proper_of_some {n K : Nat} {adj : Nat → Nat → Bool} {m : List (Nat × Nat)}
    (h : solve n K adj = some m) :
    ProperColoring n K adj fun p => ((m.get? p).getD (0, 0)).2 := by
  obtain ⟨_, _, hpair⟩ := solve_sound h
  constructor
  · intro p hp
    show ((m.get? p).getD (0, 0)).2 < K
    obtain ⟨c, hc, hcK⟩ := solve_get? h hp
    rw [hc]
    exact hcK
  · intro p q hp hq hne hadj
    show ((m.get? p).getD (0, 0)).2 ≠ ((m.get? q).getD (0, 0)).2
    obtain ⟨cp, hcp, _⟩ := solve_get? h hp
    obtain ⟨cq, hcq, _⟩ := solve_get? h hq
    rw [hcp, hcq]
    simp only [Option.getD_some]
    rcases Nat.lt_or_ge p q with hlt | hge
    · exact pairwise_get? hpair hlt hcp hcq (by simpa [Compat] using hadj)
    · have hlt : q < p := Nat.lt_of_le_of_ne hge fun e => hne e.symm
      exact Ne.symm (pairwise_get? hpair hlt hcq hcp (by simpa [Compat, or_comm] using hadj))

theorem solve_complete {n K : Nat} {adj : Nat → Nat → Bool} (f : Nat → Nat)
    (hf : ProperColoring n K adj f) : ∃ m, solve n K adj = some m := by
  apply solveAux_complete (List.range n) [] ((List.range n).map fun p => (p, f p))
  · rw [List.map_map]
    exact List.map_id (List.range n)
  · intro p hp
    obtain ⟨i, hi, rfl⟩ := List.mem_map.mp hp
    exact hf.1 i (List.mem_range.mp hi)
  · rw [List.nil_append, List.pairwise_map]
    refine List.Pairwise.imp_of_mem ?_ (List.pairwise_lt_range n)
    intro a b ha hb hlt hadj
    exact hf.2 a b (List.mem_range.mp ha) (List.mem_range.mp hb) (Nat.ne_of_lt hlt) hadj

theorem solve_isSome_iff {n K : Nat} {adj : Nat → Nat → Bool} :
    (∃ m, solve n K adj = some m) ↔ ∃ f, ProperColoring n K adj f := by
  constructor
  · rintro ⟨m, hm⟩
    exact ⟨_, solve_proper_of_some hm⟩
  · rintro ⟨f, hf⟩
    exact solve_complete f hf

/-- The uniqueness test of `get_id_col` and the precondition check of the
engine (`len(unique) == len`) succeed exactly on duplicate-free lists. -/
theorem dedup_length_iff {l : List String} : l.dedup.length = l.length ↔ l.Nodup := by
  constructor
  · intro h
    rw [← List.dedup_eq_self]
    exact (List.dedup_sublist l).eq_of_length h
  · intro h
    rw [List.dedup_eq_self.mpr h]

/-! ### Inversion principles for `color_regions` -/

theorem color_regions_assignment_inv {γ : Type} {df : GeoDF γ} {touches : γ → γ → Bool}
    {col : String} {K : Nat} {m : List (String × Nat)}
    (h : color_regions df touches col K = ColorResult.assignment m) :
    df.geoms.length ≠ 0 ∧ (colValues df col).Nodup ∧ 1 ≤ K ∧
      ∃ m₀, solve (colValues df col).length K (adjRel df touches) = some m₀ ∧
        m = m₀.map fun pv => ((colValues df col).getD pv.1 "", pv.2) := by
  rw [color_regions] at h
  split at h
  · cases h
  · rename_i hg
    split at h
    · cases h
    · rename_i hvalid
      push_neg at hvalid
      refine ⟨hg, dedup_length_iff.mp hvalid.1, hvalid.2, ?_⟩
      split at h
      · rename_i m₀ hm₀
        exact ⟨m₀, hm₀, by injection h with h'; rw [h']⟩
      · cases h

theorem color_regions_eq_assignment {γ : Type} {df : GeoDF γ} {touches : γ → γ → Bool}
    {col : String} {K : Nat} {m₀ : List (Nat × Nat)}
    (hg : df.geoms.length ≠ 0)
    (hnd : (colValues df col).Nodup) (hK : 1 ≤ K)
    (hs : solve (colValues df col).length K (adjRel df touches) = some m₀) :
    color_regions df touches col K
      = ColorResult.assignment (m₀.map fun pv => ((colValues df col).getD pv.1 "", pv.2)) := by
  rw [color_regions, if_neg hg, if_neg, hs]
  push_neg
  exact ⟨dedup_length_iff.mpr hnd, hK⟩

theorem color_regions_eq_infeasible {γ : Type} {df : GeoDF γ} {touches : γ → γ → Bool}
    {col : String} {K : Nat}
    (hg : df.geoms.length ≠ 0)
    (hnd : (colValues df col).Nodup) (hK : 1 ≤ K)
    (hs : solve (colValues df col).length K (adjRel df touches) = none) :
    color_regions df touches col K = ColorResult.infeasible := by
  rw [color_regions, if_neg hg, if_neg, hs]
  push_neg
  exact ⟨dedup_length_iff.mpr hnd, hK⟩

/-- On a frame with no geometry rows the constructed adjacency relation is
everywhere false. -/
theorem adjRel_no_geoms {γ : Type} {df : GeoDF γ} (touches : γ → γ → Bool)
    (hg0 : df.geoms.length = 0) (p q : Nat) : adjRel df touches p q = false := by
  have hp : df.geoms[p]? = none := List.getElem?_eq_none (by omega)
  cases hq : df.geoms[q]? <;> simp [adjRel, hp, hq]

/-! ### Concrete fixtures -/

/-- Three mutually adjacent regions (a triangle): every pair of geometries
touches. -/
def df3 : GeoDF Nat := ⟨[("RUID", ["a", "b", "c"])], [0, 1, 2]⟩

/-- Six mutually adjacent regions (a 6-clique), which admits no 5-coloring. -/
def dfK6 : GeoDF Nat := ⟨[("RUID", ["a", "b", "c", "d", "e", "f"])], [0, 1, 2, 3, 4, 5]⟩

/-- Two regions whose only UID-suffixed column has duplicated values. -/
def dfDup : GeoDF Nat := ⟨[("XUID", ["x", "x"]), ("NAME", ["a", "b"])], [0, 1]⟩

/-- Two regions with distinct identifiers. -/
def dfA : GeoDF Nat := ⟨[("RUID", ["a", "b"])], [0, 1]⟩

/-- An adjacency test that relates every pair of geometries. -/
def tAll : Nat → Nat → Bool := fun _ _ => true

/-- An asymmetric adjacency test result. -/
def tLt : Nat → Nat → Bool := fun a b => decide (a < b)

/-! ### The claims -/

/-- C1: whenever `color_regions` returns an assignment rather than an
infeasibility result, the assignment lists every region identifier exactly
once (it equals the identifier column, which is duplicate-free), every
assigned color lies in `[0, K)`, and the colors of every adjacent pair of
positions differ. -/
theorem color_regions_valid_total {γ : Type} (df : GeoDF γ) (touches : γ → γ → Bool)
    (col : String) (K : Nat) (m : List (String × Nat))
    (h : color_regions df touches col K = ColorResult.assignment m) :
    m.map Prod.fst = colValues df col ∧ (colValues df col).Nodup ∧
      (∀ p ∈ m, p.2 < K) ∧
      ∀ i j ci cj, adjRel df touches i j = true →
        m.get? i = some ci → m.get? j = some cj → ci.2 ≠ cj.2 := by
  obtain ⟨-, hnd, hK, m₀, hs, rfl⟩ := color_regions_assignment_inv h
  obtain ⟨hfst, hval, hpair⟩ := solve_sound hs
  have hlen : m₀.length = (colValues df col).length := by
    have := congrArg List.length hfst
    simpa using this
  refine ⟨?_, hnd, ?_, ?_⟩
  · have h2 : ((m₀.map Prod.fst).map fun i => (colValues df col).getD i "")
        = colValues df col := by
      rw [hfst, map_getD_range]
    rw [List.map_map] at h2
    rw [List.map_map]
    exact h2
  · intro p hp
    obtain ⟨pv, hpv, rfl⟩ := List.mem_map.mp hp
    exact hval pv hpv
  · intro i j ci cj hadj hci hcj
    have hne : i ≠ j := by
      simp only [adjRel, Bool.and_eq_true, decide_eq_true_eq] at hadj
      exact hadj.1
    rw [List.get?_map] at hci hcj
    cases hpi : m₀.get? i with
    | none => rw [hpi] at hci; cases hci
    | some pi =>
      cases hpj : m₀.get? j with
      | none => rw [hpj] at hcj; cases hcj
      | some pj =>
        rw [hpi] at hci
        rw [hpj] at hcj
        have hi : i < (colValues df col).length := by
          rw [← hlen]; exact (List.get?_eq_some.mp hpi).1
        have hj : j < (colValues df col).length := by
          rw [← hlen]; exact (List.get?_eq_some.mp hpj).1
        have hf := (solve_proper_of_some hs).2 i j hi hj hne (Or.inl hadj)
        have hf' : pi.2 ≠ pj.2 := by
          have hx : ((m₀.get? i).getD (0, 0)).2 = pi.2 := by rw [hpi]; rfl
          have hy : ((m₀.get? j).getD (0, 0)).2 = pj.2 := by rw [hpj]; rfl
          rw [← hx, ← hy]
          exact hf
        have hci' : ((colValues df col).getD pi.1 "", pi.2) = ci := by simpa using hci
        have hcj' : ((colValues df col).getD pj.1 "", pj.2) = cj := by simpa using hcj
        rw [← hci', ← hcj']
        simpa using hf'

/-- C1 witness: on the triangle with `K = 3` the engine succeeds, and the
returned map lists exactly the identifier column, which is duplicate-free. -/
theorem color_regions_valid_total_witness :
    ([("a", 0), ("b", 1), ("c", 2)] : List (String × Nat)).map Prod.fst
        = colValues df3 "RUID" ∧ (colValues df3 "RUID").Nodup := by
  have h := color_regions_valid_total df3 tAll "RUID" 3
    [("a", 0), ("b", 1), ("c", 2)] (by decide)
  exact ⟨h.1, h.2.1⟩

/-- C2 counterexample: at the zero-region input a proper coloring exists
(vacuously), yet the engine does not return an assignment — it fails with
the setup-time error (the numpy `ValueError` of `np.fill_diagonal` on the
1-D empty matrix), refuting the claim quantified over every region set. -/
theorem color_regions_complete_counterexample :
    ProperColoring (colValues (⟨[], []⟩ : GeoDF Nat) "RUID").length 1
        (adjRel (⟨[], []⟩ : GeoDF Nat) tAll) (fun _ => 0) ∧
      color_regions (⟨[], []⟩ : GeoDF Nat) tAll "RUID" 1 = ColorResult.invalidInput := by
  constructor
  · constructor
    · intro p hp
      show (0 : Nat) < 1
      omega
    · intro p q hp hq hne hadj
      have h0 : (colValues (⟨[], []⟩ : GeoDF Nat) "RUID").length = 0 := rfl
      show (0 : Nat) ≠ 0
      omega
  · decide

/-- C2 (amended): on nonempty, precondition-respecting input (at least one
row, pairwise-distinct identifiers, `K ≥ 1`), whenever some proper coloring
of the constructed adjacency relation exists, the search finds one and
returns an assignment; the zero-row input instead errors before search. -/
theorem color_regions_complete {γ : Type} (df : GeoDF γ) (touches : γ → γ → Bool)
    (col : String) (K : Nat) (hg : df.geoms.length ≠ 0)
    (hnd : (colValues df col).Nodup) (hK : 1 ≤ K)
    (hex : ∃ f, ProperColoring (colValues df col).length K (adjRel df touches) f) :
    ∃ m, color_regions df touches col K = ColorResult.assignment m := by
  obtain ⟨f, hf⟩ := hex
  obtain ⟨m₀, hs⟩ := solve_complete f hf
  exact ⟨_, color_regions_eq_assignment hg hnd hK hs⟩

/-- C2 witness: the identity coloring is proper for the triangle with
`K = 3`, so the engine succeeds there. -/
theorem color_regions_complete_witness :
    ∃ m, color_regions df3 tAll "RUID" 3 = ColorResult.assignment m := by
  apply color_regions_complete df3 tAll "RUID" 3 (by decide) (by decide) (by decide)
  refine ⟨fun p => p, fun p hp => ?_, fun p q _ _ hne _ => hne⟩
  have h3 : (colValues df3 "RUID").length = 3 := by decide
  show p < 3
  omega

/-- C3: input whose identifier column has duplicates, or whose palette is
empty (`K < 1`), is rejected with the invalid-input error before any search
is run; the engine never silently produces a result there.  (The third
condition of the claim — an adjacency relation referencing a region outside
the declared set — cannot arise, because `color_regions` derives the
relation from the rows themselves.) -/
theorem color_regions_invalid_input {γ : Type} (df : GeoDF γ) (touches : γ → γ → Bool)
    (col : String) (K : Nat)
    (h : ¬(colValues df col).Nodup ∨ K < 1) :
    color_regions df touches col K = ColorResult.invalidInput := by
  rw [color_regions]
  by_cases hg : df.geoms.length = 0
  · rw [if_pos hg]
  · rw [if_neg hg, if_pos]
    rcases h with h | h
    · exact Or.inl fun e => h (dedup_length_iff.mp e)
    · exact Or.inr h

/-- C3 witness: duplicated identifiers are rejected. -/
theorem color_regions_invalid_input_witness :
    color_regions dfDup tAll "XUID" 3 = ColorResult.invalidInput :=
  color_regions_invalid_input dfDup tAll "XUID" 3 (Or.inl (by decide))

/-- C4: the engine is a pure function of its input — two invocations on
identical dataframe, adjacency test, column and palette size return
identical results (the model has no unordered iteration or randomness). -/
theorem color_regions_deterministic {γ : Type} (df₁ df₂ : GeoDF γ)
    (t₁ t₂ : γ → γ → Bool) (col₁ col₂ : String) (K₁ K₂ : Nat)
    (hdf : df₁ = df₂) (ht : t₁ = t₂) (hcol : col₁ = col₂) (hK : K₁ = K₂) :
    color_regions df₁ t₁ col₁ K₁ = color_regions df₂ t₂ col₂ K₂ := by
  subst hdf; subst ht; subst hcol; subst hK; rfl

/-- C4 witness: two identical invocations on the triangle agree. -/
theorem color_regions_deterministic_witness :
    color_regions df3 tAll "RUID" 2 = color_regions df3 tAll "RUID" 2 :=
  color_regions_deterministic df3 df3 tAll tAll "RUID" "RUID" 2 2 rfl rfl rfl rfl

/-- C5: if the engine succeeds with palette size `K`, it also succeeds with
any larger palette size `K' > K`. -/
theorem color_regions_monotone {γ : Type} (df : GeoDF γ) (touches : γ → γ → Bool)
    (col : String) {K K' : Nat} {m : List (String × Nat)}
    (h : color_regions df touches col K = ColorResult.assignment m) (hKK : K < K') :
    ∃ m', color_regions df touches col K' = ColorResult.assignment m' := by
  obtain ⟨hg, hnd, hK, m₀, hs, _⟩ := color_regions_assignment_inv h
  have hf := solve_proper_of_some hs
  obtain ⟨m₀', hs'⟩ := solve_complete _
    ⟨fun p hp => Nat.lt_of_lt_of_le (hf.1 p hp) (Nat.le_of_lt hKK), hf.2⟩
  exact ⟨_, color_regions_eq_assignment hg hnd (Nat.le_trans hK (Nat.le_of_lt hKK)) hs'⟩

/-- C5 witness: success on the triangle with `K = 3` transfers to `K = 4`. -/
theorem color_regions_monotone_witness :
    ∃ m', color_regions df3 tAll "RUID" 4 = ColorResult.assignment m' :=
  color_regions_monotone df3 tAll "RUID" (by decide :
    color_regions df3 tAll "RUID" 3
      = ColorResult.assignment [("a", 0), ("b", 1), ("c", 2)]) (by decide)

/-- C6: on the triangle of mutually adjacent regions the engine reports
infeasibility with `K = 2` and returns a valid assignment with `K = 3`
(the three regions get the three distinct colors `0`, `1`, `2`). -/
theorem color_regions_triangle :
    color_regions df3 tAll "RUID" 2 = ColorResult.infeasible ∧
      color_regions df3 tAll "RUID" 3
        = ColorResult.assignment [("a", 0), ("b", 1), ("c", 2)] :=
  ⟨by decide, by decide⟩

/-- C7: the claim asserts the empty assignment at zero regions, but the
source crashes first: with zero rows the touches comprehension yields a 1-D
empty array and `np.fill_diagonal` raises `ValueError` (geoutils.py:100)
before the engine ever runs, for every palette size.  The embedded
`color_regions` accordingly returns the setup-time error result, never an
assignment, at the zero-region input. -/
theorem color_regions_empty_raises {γ : Type} (touches : γ → γ → Bool) (col : String)
    (K : Nat) :
    color_regions (⟨[], []⟩ : GeoDF γ) touches col K = ColorResult.invalidInput := rfl

/-- C8 counterexample: the constructed adjacency relation is not symmetric
for every adjacency test result — an asymmetric test produces an asymmetric
relation, refuting the claim as stated. -/
theorem adjRel_not_symmetric_counterexample :
    ¬ (adjRel dfA tLt 0 1 = adjRel dfA tLt 1 0) := by decide

/-- C8 (amended): the adjacency relation constructed by `color_regions` is
irreflexive for every adjacency test result (self-pairs are cleared from the
diagonal regardless of what the test returns), and it is symmetric whenever
the adjacency test itself is symmetric — as the geometric touches test is. -/
theorem adjRel_irrefl_symm {γ : Type} (df : GeoDF γ) (touches : γ → γ → Bool) :
    (∀ p, adjRel df touches p p = false) ∧
      ((∀ a b, touches a b = touches b a) →
        ∀ p q, adjRel df touches p q = adjRel df touches q p) := by
  constructor
  · intro p
    simp [adjRel]
  · intro hsym p q
    by_cases hpq : p = q
    · subst hpq; rfl
    · have hd : (decide (p ≠ q)) = (decide (q ≠ p)) := decide_eq_decide.mpr ne_comm
      simp only [adjRel, hd]
      cases h1 : df.geoms.get? p <;> cases h2 : df.geoms.get? q <;> simp [h1, h2, hsym]

/-- C8 witness: with a symmetric test on a two-row dataframe the relation is
irreflexive and symmetric on the concrete pair. -/
theorem adjRel_irrefl_symm_witness :
    adjRel dfA tAll 0 0 = false ∧ adjRel dfA tAll 0 1 = adjRel dfA tAll 1 0 :=
  ⟨(adjRel_irrefl_symm dfA tAll).1 0,
    (adjRel_irrefl_symm dfA tAll).2 (fun _ _ => rfl) 0 1⟩

/-- C9: when no UID-suffixed column has pairwise-distinct values,
`get_id_col` returns `None` and `to_geojson` with coloring enabled skips the
coloring step: it converts successfully, adds no color column, and raises no
error. -/
theorem to_geojson_skips_coloring {γ : Type} (df : GeoDF γ) (touches : γ → γ → Bool)
    (h : ∀ c ∈ df.cols, matchesUID c.1 = true → ¬c.2.Nodup) :
    get_id_col df = none ∧ to_geojson df touches true = Except.ok (df, none) := by
  have hnone : get_id_col df = none := by
    have hfind : (df.cols.filter fun c => matchesUID c.1).find?
        (fun c => c.2.dedup.length == c.2.length) = none := by
      rw [List.find?_eq_none]
      intro x hx hbeq
      obtain ⟨hmem, hm⟩ := List.mem_filter.mp hx
      exact h x hmem hm (dedup_length_iff.mp (by simpa using hbeq))
    rw [get_id_col, hfind]
    rfl
  refine ⟨hnone, ?_⟩
  simp [to_geojson, hnone]

/-- C9 witness: a dataframe whose only UID-suffixed column has duplicated
values is converted without coloring and without error. -/
theorem to_geojson_skips_coloring_witness :
    get_id_col dfDup = none ∧ to_geojson dfDup tAll true = Except.ok (dfDup, none) :=
  to_geojson_skips_coloring dfDup tAll (by decide)

/-- C10: when a unique UID column exists but the regions admit no proper
5-coloring, `color_regions` returns the no-solution value and `to_geojson`
fails at the loop over the color map (the Python `TypeError` from iterating
`None`) instead of producing output — the calling layer never branches on
the infeasible outcome. -/
theorem to_geojson_infeasible_error {γ : Type} (df : GeoDF γ) (touches : γ → γ → Bool)
    (col : String) (hcol : get_id_col df = some col)
    (hnd : (colValues df col).Nodup)
    (hnf : ¬∃ f, ProperColoring (colValues df col).length 5 (adjRel df touches) f) :
    to_geojson df touches true = Except.error "TypeError: NoneType is not iterable" := by
  have hsolve : solve (colValues df col).length 5 (adjRel df touches) = none := by
    cases hs : solve (colValues df col).length 5 (adjRel df touches) with
    | none => rfl
    | some m => exact absurd (solve_isSome_iff.mp ⟨m, hs⟩) hnf
  have hg : df.geoms.length ≠ 0 := by
    intro hg0
    apply hnf
    refine ⟨fun _ => 0, fun p hp => by show (0 : Nat) < 5; omega, ?_⟩
    intro p q hp hq hne hadj
    rcases hadj with hadj | hadj <;>
      · rw [adjRel_no_geoms touches hg0] at hadj
        cases hadj
  have hcr : color_regions df touches col 5 = ColorResult.infeasible :=
    color_regions_eq_infeasible hg hnd (by omega) hsolve
  simp [to_geojson, hcol, hcr]

/-- C10 witness: the 6-clique has a unique UID column but no 5-coloring
(pigeonhole on six mutually adjacent regions), so the conversion errors. -/
theorem to_geojson_infeasible_error_witness :
    to_geojson dfK6 tAll true = Except.error "TypeError: NoneType is not iterable" := by
  apply to_geojson_infeasible_error dfK6 tAll "RUID" (by decide) (by decide)
  rintro ⟨f, hb, hv⟩
  have h6 : (colValues dfK6 "RUID").length = 6 := by decide
  have hadj : ∀ p, p < 6 → ∀ q, q < 6 → p ≠ q → adjRel dfK6 tAll p q = true := by decide
  have hb' : ∀ p, p < 6 → f p < 5 := fun p hp => hb p (by rw [h6]; exact hp)
  have hv' : ∀ p q, p < 6 → q < 6 → p ≠ q → f p ≠ f q := fun p q hp hq hne =>
    hv p q (by rw [h6]; exact hp) (by rw [h6]; exact hq) hne
      (Or.inl (hadj p hp q hq hne))
  have hinj : Set.InjOn f (Finset.range 6) := by
    intro a ha b hbm hfab
    by_contra hne
    exact hv' a b (Finset.mem_range.mp (Finset.mem_coe.mp ha))
      (Finset.mem_range.mp (Finset.mem_coe.mp hbm)) hne hfab
  have hcard := Finset.card_le_card_of_injOn f
    (fun a ha => Finset.mem_range.mpr (hb' a (Finset.mem_range.mp ha))) hinj
  simp [Finset.card_range] at hcard

end Geoutils
